import Mathlib

/-!
Verification of the lead-generation system's Lead Store, follow-up
scheduler, email sender and discovery/enrichment agents.

The Lean definitions below are a shallow embedding of the Python source:

* `database.py`   -> `Lead`, `addLead`, `updateLeadStatus`, `markAsReplied`,
                     `needsFollowup`, `getLeadsNeedingFollowup`
* `email_sender.py` -> `SmtpConfig`, `sendEmailOk`, `sendEmail`,
                     `followupBody`, `sendFollowupEmail`
* `scheduler.py`  -> `schedStep`, `processFollowups`, `runScans`
* `agents.py`     -> `calculateRelevanceScore`, `generateMockResults`,
                     `searchCompanies`, `scrapeWebsite`, `fallbackInfo`,
                     `guessEmailFromUrl`

Machine times (`datetime.utcnow()`) are modelled as natural-number ticks.
The SQLite store is a list of rows; queries by email use the database's
exact (binary-collation) string comparison, as SQLAlchemy's
`filter_by(email=...)` does on a TEXT column.  SMTP and LLM calls are
modelled by oracles passed as function arguments.
-/

namespace LeadGen

/-! ## Data model (database.py, class Lead) -/

/-- A row of the `leads` table.  `company_data` is the raw JSON payload,
kept uninterpreted.  Timestamps are `Nat` ticks, nullable columns are
`Option`. -/
structure Lead where
  email : String
  name : Option String := none
  company_name : Option String := none
  company_data : Option String := none
  campaign_id : Option String := none
  status : String := "found"
  email_content : Option String := none
  follow_up_date : Option Nat := none
  created_at : Nat := 0
  last_contacted_at : Option Nat := none
  sent_email_at : Option Nat := none
  has_replied : Bool := false
  deriving Repr, DecidableEq

/-- config.py: `FOLLOW_UP_DAYS = 7`. -/
def followUpDays : Nat := 7

/-- The store: the `leads` table as a list of rows. -/
abbrev Store := List Lead

/-- `session.query(Lead).filter_by(email=email).first()`. -/
def findLead (e : String) (st : Store) : Option Lead :=
  st.find? (fun l => l.email == e)

/-- Status of the first lead with the given email, if any. -/
def statusOf (e : String) (st : Store) : Option String :=
  (findLead e st).map (fun l => l.status)

/-- Follow-up date column of the first lead with the given email. -/
def fudOf (e : String) (st : Store) : Option (Option Nat) :=
  (findLead e st).map (fun l => l.follow_up_date)

/-- Stored email content of the first lead with the given email. -/
def contentOf (e : String) (st : Store) : Option (Option String) :=
  (findLead e st).map (fun l => l.email_content)

/-- Last-contacted timestamp of the first lead with the given email. -/
def lastContactedOf (e : String) (st : Store) : Option (Option Nat) :=
  (findLead e st).map (fun l => l.last_contacted_at)

/-- Update the first list element satisfying `p` (the row returned by
`.first()`) with `f`; all other rows are untouched. -/
def updateFirst (p : Lead → Bool) (f : Lead → Lead) : Store → Store
  | [] => []
  | l :: ls => if p l then f l :: ls else l :: updateFirst p f ls

/-- `Database.add_lead`: return the existing row unmodified if one with
this exact email exists, else insert a fresh `found` row. -/
def addLead (email : String) (name companyName companyData campaignId : Option String)
    (now : Nat) (st : Store) : Lead × Store :=
  match st.find? (fun l => l.email == email) with
  | some existing => (existing, st)
  | none =>
    let lead : Lead :=
      { email := email, name := name, company_name := companyName,
        company_data := companyData, campaign_id := campaignId,
        status := "found", created_at := now }
    (lead, st ++ [lead])

/-- Row transform of `Database.update_lead_status`: set the status,
stamp `last_contacted_at`, store the email content when truthy, and on
status `"emailed"` stamp `sent_email_at` and schedule a follow-up
`FOLLOW_UP_DAYS` later. -/
def applyStatusUpdate (status : String) (emailContent : Option String)
    (now : Nat) (l : Lead) : Lead :=
  let l1 := { l with status := status, last_contacted_at := some now }
  let l2 := match emailContent with
    | some c => if c = "" then l1 else { l1 with email_content := some c }
    | none => l1
  if status = "emailed" then
    { l2 with sent_email_at := some now,
              follow_up_date := some (now + followUpDays) }
  else l2

/-- `Database.update_lead_status`: apply the row transform to the first
row with this email. -/
def updateLeadStatus (email status : String) (emailContent : Option String)
    (now : Nat) (st : Store) : Store :=
  updateFirst (fun l => l.email == email) (applyStatusUpdate status emailContent now) st

/-- Row transform of `Database.mark_as_replied`. -/
def applyReplied (l : Lead) : Lead :=
  { l with has_replied := true, status := "replied", follow_up_date := none }

/-- `Database.mark_as_replied`: set `has_replied`, move status to
`"replied"` and cancel any scheduled follow-up. -/
def markAsReplied (email : String) (st : Store) : Store :=
  updateFirst (fun l => l.email == email) applyReplied st

/-- Row filter of `Database.get_leads_needing_followup`: follow-up date
non-null and elapsed, status exactly `"emailed"`, and not replied. -/
def needsFollowup (now : Nat) (l : Lead) : Bool :=
  match l.follow_up_date with
  | none => false
  | some d => decide (d ≤ now) && l.status == "emailed" && !l.has_replied

/-- `Database.get_leads_needing_followup`. -/
def getLeadsNeedingFollowup (now : Nat) (st : Store) : List Lead :=
  st.filter (needsFollowup now)

/-! ## String helpers shared by agents.py -/

/-- Boolean list prefix test. -/
def isPrefixList : List Char → List Char → Bool
  | [], _ => true
  | _ :: _, [] => false
  | a :: as, b :: bs => a == b && isPrefixList as bs

/-- Substring search over char lists. -/
def containsSub (needle : List Char) : List Char → Bool
  | [] => isPrefixList needle []
  | c :: cs => isPrefixList needle (c :: cs) || containsSub needle cs

/-- Python's `needle in hay` substring containment on strings. -/
def strContains (hay needle : String) : Bool :=
  containsSub needle.toList hay.toList

/-- Python's `str.title()`: upper-case each letter that starts a letter
run, lower-case the other letters. -/
def pyTitleGo : Bool → List Char → List Char
  | _, [] => []
  | prevAlpha, c :: cs =>
    if c.isAlpha then
      (if prevAlpha then c.toLower else c.toUpper) :: pyTitleGo true cs
    else c :: pyTitleGo false cs

/-- Python's `str.title()` on a string. -/
def pyTitle (s : String) : String :=
  String.mk (pyTitleGo false s.toList)

/-- Python's `str.lower()` (per-character lowering). -/
def pyLower (s : String) : String :=
  String.mk (s.toList.map Char.toLower)

/-- Python's `str.startswith(pre)`. -/
def pyStartsWith (s pre : String) : Bool :=
  isPrefixList pre.toList s.toList

/-- Python's slice `s[:n]` (character count). -/
def pyTake (s : String) (n : Nat) : String :=
  String.mk (s.toList.take n)

/-- Python's slice `s[n:]` (character count). -/
def pyDrop (s : String) (n : Nat) : String :=
  String.mk (s.toList.drop n)

/-- Python's `str.strip()` with no argument: drop whitespace at both
ends. -/
def pyStrip (s : String) : String :=
  String.mk (((s.toList.dropWhile Char.isWhitespace).reverse.dropWhile
    Char.isWhitespace).reverse)

/-- Python's `str.takewhile`-style helper used for netloc parsing. -/
def pyTakeWhile (s : String) (p : Char → Bool) : String :=
  String.mk (s.toList.takeWhile p)

/-- Fuelled scanner behind `pySplit`; the fuel is at least the input
length plus one, so it never runs out for a non-empty separator. -/
def splitGo (sep : List Char) : Nat → List Char → List Char → List (List Char)
  | 0, cur, rest => [cur ++ rest]
  | _ + 1, cur, [] => [cur]
  | fuel + 1, cur, c :: cs =>
    if isPrefixList sep (c :: cs) then
      cur :: splitGo sep fuel [] ((c :: cs).drop sep.length)
    else
      splitGo sep fuel (cur ++ [c]) cs

/-- Python's `str.split(sep)` for a non-empty separator (the only way
the source calls it). -/
def pySplit (s sep : String) : List String :=
  if sep = "" then [s]
  else (splitGo sep.toList (s.toList.length + 1) [] s.toList).map String.mk

/-- Fuelled scanner behind `pyReplace`. -/
def replaceGo (pat rep : List Char) : Nat → List Char → List Char
  | 0, rest => rest
  | _ + 1, [] => []
  | fuel + 1, c :: cs =>
    if isPrefixList pat (c :: cs) then
      rep ++ replaceGo pat rep fuel ((c :: cs).drop pat.length)
    else
      c :: replaceGo pat rep fuel cs

/-- Python's `str.replace(pattern, replacement)` for a non-empty
pattern (the only way the source calls it). -/
def pyReplace (s pattern replacement : String) : String :=
  if pattern = "" then s
  else String.mk (replaceGo pattern.toList replacement.toList (s.toList.length + 1) s.toList)

/-- Word scanner behind `pySplitWs`. -/
def wordsGo (cur : List Char) : List Char → List (List Char)
  | [] => if cur = [] then [] else [cur.reverse]
  | c :: cs =>
    if c.isWhitespace then
      if cur = [] then wordsGo [] cs else cur.reverse :: wordsGo [] cs
    else wordsGo (c :: cur) cs

/-- Python's `str.split()` with no argument: split on whitespace runs
and drop empty pieces. -/
def pySplitWs (s : String) : List String :=
  (wordsGo [] s.toList).map String.mk

/-! ## Email sender (email_sender.py) -/

/-- SMTP configuration as read in `EmailSender.__init__`; `email_from`
is already coalesced with the username there.  Empty string models an
unset (falsy) value. -/
structure SmtpConfig where
  username : String
  password : String
  emailFrom : String
  deriving Repr, DecidableEq

/-- `EmailSender.send_email` reports success iff the credential and
recipient validations pass and the SMTP exchange (oracle `smtpOk`)
raises no exception. -/
def sendEmailOk (cfg : SmtpConfig) (smtpOk : Bool) (toEmail : String) : Bool :=
  if cfg.username = "" || cfg.password = "" then false
  else if cfg.emailFrom = "" then false
  else if toEmail = "" || !(toEmail.toList.contains '@') then false
  else smtpOk

/-- `EmailSender.send_email`: on a successful send, and only then, the
lead's row is updated to `followed_up`/`emailed` with the sent body. -/
def sendEmail (cfg : SmtpConfig) (smtpOk : Bool) (toEmail body leadEmail : String)
    (isFollowup : Bool) (now : Nat) (st : Store) : Bool × Store :=
  if sendEmailOk cfg smtpOk toEmail then
    let status := if isFollowup then "followed_up" else "emailed"
    (true, updateLeadStatus leadEmail status (some body) now st)
  else
    (false, st)

/-- The fixed follow-up body from `EmailSender.send_followup_email`. -/
def followupBody : String :=
  "Hi there,\n\nI wanted to follow up on my previous email. I'd love to hear your thoughts or answer any questions you might have.\n\nLooking forward to hearing from you!\n\nBest regards"

/-- Subject derivation of `EmailSender.send_followup_email`. -/
def followupSubject (originalEmail : String) : String :=
  let base :=
    if originalEmail.length > 50 then
      let firstLine := pyStrip ((pySplit originalEmail ("\n")).headD (""))
      if firstLine.length < 100 then firstLine else pyTake originalEmail 50
    else pyTake originalEmail 50
  ("Re: ") ++ base

/-- `EmailSender.send_followup_email`: sends the fixed follow-up body as
a follow-up to the lead's own address. -/
def sendFollowupEmail (cfg : SmtpConfig) (smtpOk : Bool) (leadEmail originalEmail : String)
    (now : Nat) (st : Store) : Bool × Store :=
  let _subject := followupSubject originalEmail
  sendEmail cfg smtpOk leadEmail followupBody leadEmail true now st

/-! ## Scheduler (scheduler.py) -/

/-- Row transform of the follow-up-date clearing session. -/
def applyClearFud (l : Lead) : Lead :=
  { l with follow_up_date := none }

/-- The separate session in `FollowUpScheduler.process_followups` that
clears `follow_up_date` after a confirmed send. -/
def clearFollowUpDate (email : String) (st : Store) : Store :=
  updateFirst (fun l => l.email == email) applyClearFud st

/-- One iteration of the loop in `process_followups`, acting on a lead
from the selection snapshot.  `smtpOk` is the per-recipient SMTP oracle;
the accumulator carries the emails successfully followed up so far and
the evolving store. -/
def schedStep (cfg : SmtpConfig) (smtpOk : String → Bool) (now : Nat)
    (acc : List String × Store) (lead : Lead) : List String × Store :=
  match lead.follow_up_date with
  | none => acc
  | some d =>
    if d ≤ now then
      if lead.has_replied then acc
      else
        let originalEmail := match lead.email_content with
          | some c => if c = "" then ("Previous message") else c
          | none => ("Previous message")
        let r := sendFollowupEmail cfg (smtpOk lead.email) lead.email originalEmail now acc.2
        if r.1 then (acc.1 ++ [lead.email], clearFollowUpDate lead.email r.2)
        else (acc.1, r.2)
    else acc

/-- `FollowUpScheduler.process_followups`: one full scheduler scan at
time `now`.  Returns the emails that received a follow-up and the store
after the scan. -/
def processFollowups (cfg : SmtpConfig) (smtpOk : String → Bool) (now : Nat)
    (st : Store) : List String × Store :=
  (getLeadsNeedingFollowup now st).foldl (schedStep cfg smtpOk now) ([], st)

/-- Repeated scheduler scans, each with its own wall-clock time and SMTP
oracle, as the scheduler loop performs while `running`. -/
def runScans (cfg : SmtpConfig) : List (Nat × (String → Bool)) → Store → List String × Store
  | [], st => ([], st)
  | (now, f) :: rest, st =>
    let r := processFollowups cfg f now st
    let r' := runScans cfg rest r.2
    (r.1 ++ r'.1, r'.2)

/-- The automated store transitions: a scheduler scan, or recording a
reply (`Database.mark_as_replied`, reached from the replied endpoint). -/
inductive AutoOp where
  | scan (smtpOk : String → Bool) (now : Nat)
  | reply (email : String)

/-- Apply one automated operation to the store. -/
def applyAutoOp (cfg : SmtpConfig) (st : Store) : AutoOp → Store
  | AutoOp.scan f now => (processFollowups cfg f now st).2
  | AutoOp.reply e => markAsReplied e st

/-- Apply a sequence of automated operations to the store. -/
def applyAutoOps (cfg : SmtpConfig) (ops : List AutoOp) (st : Store) : Store :=
  ops.foldl (applyAutoOp cfg) st

/-- Position of a status in the pipeline `found -> emailed ->
followed_up -> replied`. -/
def statusRank (s : String) : Nat :=
  if s = "found" then 0
  else if s = "emailed" then 1
  else if s = "followed_up" then 2
  else if s = "replied" then 3
  else 0

/-! ## Lead discovery (agents.py, LeadDiscoveryAgent) -/

/-- A search result dict as built by `search_companies`.  Scores are
rationals: the exact-real reading of the source's float literals. -/
structure SearchResult where
  title : String
  url : String
  content : String
  score : ℚ
  deriving Repr, DecidableEq

/-- `LeadDiscoveryAgent._generate_mock_results`: the synthetic
placeholder result set, `min(max_results, 5)` entries. -/
def generateMockResults (query : String) (maxResults : Int) : List SearchResult :=
  (List.range (min maxResults 5).toNat).map (fun (i : Nat) =>
    { title := ("Company ") ++ toString (i + 1) ++ (" matching: ") ++ query,
      url := ("https://example-company-") ++ toString (i + 1) ++ (".com"),
      content := ("This is a company that matches the search criteria: ") ++ query,
      score := (8 : ℚ) / 10 - (i : ℚ) / 10 })

/-- Environment of one `search_companies` call: no backend configured,
a configured backend whose call raises, or a configured backend that
returns a (filtered) result list. -/
inductive SearchBackendState where
  | noBackend
  | backendRaises
  | backendReturns (rs : List SearchResult)

/-- Control flow of `LeadDiscoveryAgent.search_companies`: the final
`else` branch and the `except` handler both fall back to
`_generate_mock_results`. -/
def searchCompanies (b : SearchBackendState) (query : String) (maxResults : Int) :
    List SearchResult :=
  match b with
  | SearchBackendState.noBackend => generateMockResults query maxResults
  | SearchBackendState.backendRaises => generateMockResults query maxResults
  | SearchBackendState.backendReturns rs => rs

/-- Fixed business-indicative vocabulary of
`_calculate_relevance_score`. -/
def businessTerms : List String :=
  ["contact", "about", "company", "restaurant", "cafe", "hotel", "business"]

/-- Fixed generic/listicle vocabulary of `_calculate_relevance_score`. -/
def genericTerms : List String :=
  ["list", "best", "top", "review", "article", "blog", "news"]

/-- `LeadDiscoveryAgent._calculate_relevance_score`, over the result's
`link`, `title` and `snippet` fields and the original query. -/
def calculateRelevanceScore (link title snippet query : String) : ℚ :=
  let url := pyLower link
  let titleL := pyLower title
  let _snippet := pyLower snippet
  let queryLower := pyLower query
  let score : ℚ := 1
  let score := businessTerms.foldl
    (fun sc term => if strContains url term || strContains titleL term then sc + 2 / 10 else sc)
    score
  let queryWords := pySplitWs queryLower
  let m : ℚ := (queryWords.countP (fun w => strContains titleL w) : ℚ)
  let score := score + m * (1 / 10)
  let score := genericTerms.foldl
    (fun sc term => if strContains titleL term || strContains url term then sc - 1 / 10 else sc)
    score
  max (1 / 10) (min 1 score)

/-! ## Lead enrichment (agents.py, LeadEnrichmentAgent) -/

/-- `LeadEnrichmentAgent._normalize_url`: trim, default to https, keep
only scheme and network location. -/
def normalizeUrl (url : String) : String :=
  let u := pyStrip url
  let u := if pyStartsWith u ("http://") || pyStartsWith u ("https://") then u
    else ("https://") ++ u
  let scheme := (pySplit u ("://")).headD ("")
  let rest := ((pySplit u ("://")).drop 1).headD ("")
  let netloc := pyTakeWhile rest (fun c => (c != '/') && (c != '?') && (c != '#'))
  scheme ++ ("://") ++ netloc

/-- The candidate page set of `scrape_website`: homepage first, then
context-specific subpages. -/
def pagesToScrape (baseUrl : String) : List String :=
  let urlLower := pyLower baseUrl
  if [("restaurant"), "cafe", "dining", "bistro", "eatery", "food"].any
      (fun t => strContains urlLower t) then
    [baseUrl, baseUrl ++ ("/contact"), baseUrl ++ ("/reservations"),
     baseUrl ++ ("/book-a-table"), baseUrl ++ ("/about"), baseUrl ++ ("/menu")]
  else
    [baseUrl, baseUrl ++ ("/contact"), baseUrl ++ ("/about"),
     baseUrl ++ ("/company"), baseUrl ++ ("/team")]

/-- One successfully scraped page: its URL and (truncated) content. -/
structure ScrapedPage where
  url : String
  content : String
  deriving Repr, DecidableEq

/-- The page-break join both deep-scrape helpers perform. -/
def combineContent (pages : List ScrapedPage) : String :=
  String.intercalate ("\n\n---PAGE BREAK---\n\n")
    (pages.map (fun p => ("Page: ") ++ p.url ++ ("\n") ++ p.content))

/-- Pages attempted by `_deep_scrape_with_firecrawl`:
`priority_urls = [urls[0]]` plus `other_urls = urls[1:3]`. -/
def firecrawlPages (urls : List String) : List String :=
  urls.take 1 ++ (urls.drop 1).take 2

/-- Outcome of the Firecrawl fetch (with its retries) for one page:
`fc u = some md` is a 200 response with markdown `md`; the page is kept
only when the markdown is non-empty. -/
def fcPageResult (fc : String → Option String) (u : String) : Option ScrapedPage :=
  match fc u with
  | some md => if md = "" then none else some { url := u, content := pyTake md 3000 }
  | none => none

/-- Pages collected by `_deep_scrape_with_firecrawl`. -/
def fcCollect (fc : String → Option String) (urls : List String) : List ScrapedPage :=
  (firecrawlPages urls).filterMap (fcPageResult fc)

/-- Outcome of the direct `requests` fetch for one page: the page is
kept only when the extracted text is non-empty and longer than 100
characters. -/
def reqPageResult (req : String → Option String) (u : String) : Option ScrapedPage :=
  match req u with
  | some text =>
    if text ≠ "" ∧ 100 < text.length then some { url := u, content := pyTake text 3000 }
    else none
  | none => none

/-- Pages collected by `_deep_scrape_with_requests` (`urls[:3]`). -/
def reqCollect (req : String → Option String) (urls : List String) : List ScrapedPage :=
  (urls.take 3).filterMap (reqPageResult req)

/-- Whether one page yields usable content through Firecrawl. -/
def fcUsable (fc : String → Option String) (u : String) : Bool :=
  match fc u with
  | some md => md != ""
  | none => false

/-- Whether one page yields usable content through the direct fetch. -/
def reqUsable (req : String → Option String) (u : String) : Bool :=
  match req u with
  | some text => (text != "") && decide (100 < text.length)
  | none => false

/-- Extraction result as assembled by `_extract_info_from_content`
(fields relevant to the claims). -/
structure ExtractedInfo where
  company_name : String
  description : String
  website_url : String
  email : Option String
  source_url : String
  scraped_pages : List String
  deriving Repr, DecidableEq

/-- `_deep_scrape_with_firecrawl`: `none` when no page produced
content, otherwise extraction (oracle `extract`) over the combined
content and the successful pages. -/
def deepScrapeFirecrawl (fc : String → Option String)
    (extract : String → List String → ExtractedInfo) (urls : List String) :
    Option ExtractedInfo :=
  let collected := fcCollect fc urls
  if collected = [] then none
  else some (extract (combineContent collected) (collected.map (fun p => p.url)))

/-- `_deep_scrape_with_requests`: same shape over the direct fetch. -/
def deepScrapeRequests (req : String → Option String)
    (extract : String → List String → ExtractedInfo) (urls : List String) :
    Option ExtractedInfo :=
  let collected := reqCollect req urls
  if collected = [] then none
  else some (extract (combineContent collected) (collected.map (fun p => p.url)))

/-- `LeadEnrichmentAgent.scrape_website`: normalize the URL, build the
candidate pages, try Firecrawl when configured, fall back to the direct
fetch, stamp `website_url` on success, `none` on total failure. -/
def scrapeWebsite (hasFirecrawlKey : Bool) (fc req : String → Option String)
    (extract : String → List String → ExtractedInfo) (url : String) :
    Option ExtractedInfo :=
  let baseUrl := normalizeUrl url
  let pages := pagesToScrape baseUrl
  let viaRequests :=
    match deepScrapeRequests req extract pages with
    | some d => some { d with website_url := baseUrl }
    | none => none
  if hasFirecrawlKey then
    match deepScrapeFirecrawl fc extract pages with
    | some d => some { d with website_url := baseUrl }
    | none => viaRequests
  else viaRequests

/-- `LeadEnrichmentAgent._guess_email_from_url`: derive the domain and
return the first pattern of the context-matched list; every branch's
first pattern is `contact@domain`. -/
def guessEmailFromUrl (url : String) (content : String) : Option String :=
  let domain0 := (pySplit ((pySplit url ("//")).getLastD ("")) ("/")).headD ("")
  let domain := if pyStartsWith domain0 ("www.") then pyDrop domain0 4 else domain0
  let contentLower := if content = "" then ("") else pyLower content
  if [("restaurant"), "dining", "food", "menu", "reservation", "booking"].any
      (fun t => strContains contentLower t) then
    some (("contact@") ++ domain)
  else if [("hotel"), "accommodation", "stay", "room"].any
      (fun t => strContains contentLower t) then
    some (("contact@") ++ domain)
  else
    some (("contact@") ++ domain)

/-- The `except` fallback of `_extract_info_from_content`: a minimal
record derived from the raw domain plus a truncated excerpt. -/
def fallbackInfo (content : String) (baseUrl : String)
    (scrapedPages : Option (List String)) : ExtractedInfo :=
  let domain := (pySplit ((pySplit baseUrl ("//")).getLastD ("")) ("/")).headD ("")
  { company_name := pyTitle ((pySplit (pyReplace domain ("www.") ("")) (".")).headD ("")),
    description := if content = "" then ("No description available") else pyTake content 300,
    website_url := baseUrl,
    email := guessEmailFromUrl baseUrl (""),
    source_url := baseUrl,
    scraped_pages := match scrapedPages with
      | none => [baseUrl]
      | some ps => if ps = [] then [baseUrl] else ps }

/-! ## Verification-layer definitions -/

/-- Whether the snapshot's double-check and the send both go through. -/
def stepFires (cfg : SmtpConfig) (smtpOk : String → Bool) (now : Nat) (lead : Lead) : Bool :=
  (match lead.follow_up_date with
   | some d => decide (d ≤ now)
   | none => false)
  && !lead.has_replied && sendEmailOk cfg (smtpOk lead.email) lead.email

/-- How a scan is allowed to evolve a row: same email, same reply flag,
status untouched or advanced to `followed_up`, follow-up date untouched
or cleared. -/
def RowEvolves (l' l : Lead) : Prop :=
  l'.email = l.email ∧ l'.has_replied = l.has_replied
    ∧ (l'.status = l.status ∨ l'.status = "followed_up")
    ∧ (l'.follow_up_date = l.follow_up_date ∨ l'.follow_up_date = none)

/-- The invariant of claim C4: a replied lead carries no scheduled
follow-up. -/
def RepliedInv (st : Store) : Prop :=
  ∀ l ∈ st, l.has_replied = true → l.follow_up_date = none

/-- Argument record of one `add_lead` call. -/
structure AddArgs where
  email : String
  name : Option String := none
  company_name : Option String := none
  company_data : Option String := none
  campaign_id : Option String := none
  now : Nat := 0

/-- Apply one `add_lead` call to the store. -/
def applyAddLead (st : Store) (a : AddArgs) : Store :=
  (addLead a.email a.name a.company_name a.company_data a.campaign_id a.now st).2

/-- Apply a sequence of `add_lead` calls to the store. -/
def applyAddLeads (args : List AddArgs) (st : Store) : Store :=
  args.foldl applyAddLead st

/-! ## Store lemmas -/

/-- Updating the first row with email `e'` by an email-preserving `f`
affects a lookup by email `e` only when `e = e'`, and then exactly by
`f`. -/
theorem find?_updateFirst (e e' : String) (f : Lead → Lead)
    (hf : ∀ l, (f l).email = l.email) (st : Store) :
    (updateFirst (fun l => l.email == e') f st).find? (fun l => l.email == e)
      = if e = e' then (st.find? (fun l => l.email == e)).map f
        else st.find? (fun l => l.email == e) := by
  induction st with
  | nil => simp [updateFirst]
  | cons x xs ih =>
    by_cases hee : e = e'
    · subst hee
      by_cases hx : x.email = e
      · simp [updateFirst, hx, hf]
      · simp [updateFirst, hx, ih]
    · by_cases hx : x.email = e'
      · have hxe : ¬x.email = e := fun h => hee (h ▸ hx)
        simp [updateFirst, hx, hf, hee, hxe, Ne.symm hee]
      · by_cases hxe : x.email = e
        · simp [updateFirst, hx, hxe, hee]
        · simp [updateFirst, hx, hxe, hee, ih]

/-- An email-preserving first-row update leaves the email column
unchanged. -/
theorem map_email_updateFirst (p : Lead → Bool) (f : Lead → Lead)
    (hf : ∀ l, (f l).email = l.email) (st : Store) :
    (updateFirst p f st).map (fun l => l.email) = st.map (fun l => l.email) := by
  induction st with
  | nil => rfl
  | cons x xs ih =>
    by_cases hx : p x = true
    · simp [updateFirst, hx, hf]
    · simp [updateFirst, hx, ih]

/-- Every row after a first-row update is an original row or the image
of an original row under `f`. -/
theorem mem_updateFirst (p : Lead → Bool) (f : Lead → Lead) (st : Store)
    (l' : Lead) (h : l' ∈ updateFirst p f st) :
    l' ∈ st ∨ ∃ l ∈ st, l' = f l := by
  induction st with
  | nil => simp [updateFirst] at h
  | cons x xs ih =>
    by_cases hx : p x = true
    · simp only [updateFirst, hx, if_pos] at h
      rcases List.mem_cons.mp h with h | h
      · exact Or.inr ⟨x, List.mem_cons_self x xs, h⟩
      · exact Or.inl (List.mem_cons_of_mem x h)
    · simp only [updateFirst, hx, if_neg, Bool.not_eq_true] at h
      rcases List.mem_cons.mp h with h | h
      · exact Or.inl (h ▸ List.mem_cons_self x xs)
      · rcases ih h with h | ⟨l, hl, hfl⟩
        · exact Or.inl (List.mem_cons_of_mem x h)
        · exact Or.inr ⟨l, List.mem_cons_of_mem x hl, hfl⟩

/-- When emails are unique (the store's UNIQUE index on the email
column), looking a member row up by its own email finds exactly it. -/
theorem find?_eq_of_mem (st : Store) (l : Lead)
    (hnd : (st.map (fun x => x.email)).Nodup) (h : l ∈ st) :
    st.find? (fun x => x.email == l.email) = some l := by
  induction st with
  | nil => simp at h
  | cons x xs ih =>
    rcases List.mem_cons.mp h with h | h
    · simp [h]
    · have hx : ¬x.email = l.email := by
        intro hx
        have : x.email ∈ xs.map (fun x => x.email) :=
          hx ▸ List.mem_map_of_mem (fun x => x.email) h
        exact (List.nodup_cons.mp hnd).1 this
      rw [List.find?_cons_of_neg (p := fun x => x.email == l.email) (a := x) xs (by simp [hx])]
      exact ih (List.nodup_cons.mp hnd).2 h

/-! ## Row-transform field lemmas -/

theorem applyStatusUpdate_email (s : String) (c : Option String) (now : Nat) (l : Lead) :
    (applyStatusUpdate s c now l).email = l.email := by
  cases c <;> simp only [applyStatusUpdate] <;> split_ifs <;> rfl

theorem applyStatusUpdate_has_replied (s : String) (c : Option String) (now : Nat) (l : Lead) :
    (applyStatusUpdate s c now l).has_replied = l.has_replied := by
  cases c <;> simp only [applyStatusUpdate] <;> split_ifs <;> rfl

theorem applyStatusUpdate_status (s : String) (c : Option String) (now : Nat) (l : Lead) :
    (applyStatusUpdate s c now l).status = s := by
  cases c <;> simp only [applyStatusUpdate] <;> split_ifs <;> rfl

theorem applyStatusUpdate_fud (s : String) (c : Option String) (now : Nat) (l : Lead)
    (h : ¬s = "emailed") :
    (applyStatusUpdate s c now l).follow_up_date = l.follow_up_date := by
  cases c <;> simp only [applyStatusUpdate] <;> split_ifs <;> rfl

/-- The concrete row update a successful scheduler send performs. -/
theorem applyStatusUpdate_followup_eq (now : Nat) (l : Lead) :
    applyStatusUpdate ("followed_up") (some followupBody) now l
      = { l with status := "followed_up", last_contacted_at := some now,
                 email_content := some followupBody } := by
  simp only [applyStatusUpdate]
  rw [if_neg (show ¬(followupBody = "") by decide),
      if_neg (show ¬(("followed_up" : String) = "emailed") by decide)]

theorem applyReplied_email (l : Lead) : (applyReplied l).email = l.email := rfl

theorem applyClearFud_email (l : Lead) : (applyClearFud l).email = l.email := rfl

/-- Unfolding of the selection predicate into its four conditions. -/
theorem needsFollowup_iff (now : Nat) (l : Lead) :
    needsFollowup now l = true
      ↔ (∃ d, l.follow_up_date = some d ∧ d ≤ now)
          ∧ l.status = "emailed" ∧ l.has_replied = false := by
  cases hf : l.follow_up_date with
  | none => simp [needsFollowup, hf]
  | some d =>
    simp only [needsFollowup, hf, Bool.and_eq_true, decide_eq_true_eq, beq_iff_eq,
      Bool.not_eq_true']
    constructor
    · rintro ⟨⟨hd, hs⟩, hr⟩
      exact ⟨⟨d, rfl, hd⟩, hs, hr⟩
    · rintro ⟨⟨d', hd', hle⟩, hs, hr⟩
      cases hd'
      exact ⟨⟨hle, hs⟩, hr⟩

/-! ## Scheduler-step characterization -/

/-- A scheduler-loop iteration either fires — appending the lead's email
to the sent list and performing the `followed_up` update plus the
follow-up-date clearing — or leaves the accumulator unchanged. -/
theorem schedStep_eq (cfg : SmtpConfig) (smtpOk : String → Bool) (now : Nat)
    (sent : List String) (st : Store) (lead : Lead) :
    schedStep cfg smtpOk now (sent, st) lead
      = if stepFires cfg smtpOk now lead then
          (sent ++ [lead.email],
           clearFollowUpDate lead.email
             (updateLeadStatus lead.email ("followed_up") (some followupBody) now st))
        else (sent, st) := by
  cases hf : lead.follow_up_date with
  | none => simp [schedStep, stepFires, hf]
  | some d =>
    by_cases hd : d ≤ now
    · by_cases hr : lead.has_replied
      · simp [schedStep, stepFires, hf, hd, hr]
      · by_cases hok : sendEmailOk cfg (smtpOk lead.email) lead.email = true
        · simp [schedStep, stepFires, hf, hd, hr, hok, sendFollowupEmail, sendEmail]
        · simp [schedStep, stepFires, hf, hd, hr, hok, sendFollowupEmail, sendEmail]
    · simp [schedStep, stepFires, hf, hd]

/-- Lookup through `update_lead_status`. -/
theorem findLead_update (e e' s : String) (c : Option String) (now : Nat) (st : Store) :
    findLead e (updateLeadStatus e' s c now st)
      = if e = e' then (findLead e st).map (applyStatusUpdate s c now)
        else findLead e st :=
  find?_updateFirst e e' _ (applyStatusUpdate_email s c now) st

/-- Lookup through the follow-up-date clearing. -/
theorem findLead_clearFud (e e' : String) (st : Store) :
    findLead e (clearFollowUpDate e' st)
      = if e = e' then (findLead e st).map applyClearFud else findLead e st :=
  find?_updateFirst e e' _ applyClearFud_email st

/-- Lookup through `mark_as_replied`. -/
theorem findLead_markReplied (e e' : String) (st : Store) :
    findLead e (markAsReplied e' st)
      = if e = e' then (findLead e st).map applyReplied else findLead e st :=
  find?_updateFirst e e' _ applyReplied_email st

/-- `update_lead_status` preserves the email column. -/
theorem emails_update (e s : String) (c : Option String) (now : Nat) (st : Store) :
    (updateLeadStatus e s c now st).map (fun l => l.email) = st.map (fun l => l.email) :=
  map_email_updateFirst _ _ (applyStatusUpdate_email s c now) st

/-- The follow-up-date clearing preserves the email column. -/
theorem emails_clearFud (e : String) (st : Store) :
    (clearFollowUpDate e st).map (fun l => l.email) = st.map (fun l => l.email) :=
  map_email_updateFirst _ _ applyClearFud_email st

/-- `mark_as_replied` preserves the email column. -/
theorem emails_markReplied (e : String) (st : Store) :
    (markAsReplied e st).map (fun l => l.email) = st.map (fun l => l.email) :=
  map_email_updateFirst _ _ applyReplied_email st

/-- A scheduler iteration for one lead never touches rows with a
different email. -/
theorem findLead_schedStep_ne (cfg : SmtpConfig) (smtpOk : String → Bool) (now : Nat)
    (sent : List String) (st : Store) (lead : Lead) (e : String) (h : ¬e = lead.email) :
    findLead e (schedStep cfg smtpOk now (sent, st) lead).2 = findLead e st := by
  rw [schedStep_eq]
  split
  · rw [findLead_clearFud, if_neg h, findLead_update, if_neg h]
  · rfl

/-- A scheduler iteration preserves the email column. -/
theorem emails_schedStep (cfg : SmtpConfig) (smtpOk : String → Bool) (now : Nat)
    (sent : List String) (st : Store) (lead : Lead) :
    (schedStep cfg smtpOk now (sent, st) lead).2.map (fun l => l.email)
      = st.map (fun l => l.email) := by
  rw [schedStep_eq]
  split
  · dsimp only
    rw [emails_clearFud, emails_update]
  · rfl

/-- The whole scan loop preserves the email column. -/
theorem emails_foldl_schedStep (cfg : SmtpConfig) (smtpOk : String → Bool) (now : Nat)
    (leads : List Lead) :
    ∀ (sent : List String) (st : Store),
      ((leads.foldl (schedStep cfg smtpOk now) (sent, st)).2).map (fun l => l.email)
        = st.map (fun l => l.email) := by
  induction leads with
  | nil => intro sent st; rfl
  | cons lead rest ih =>
    intro sent st
    simp only [List.foldl_cons]
    rw [show schedStep cfg smtpOk now (sent, st) lead
          = ((schedStep cfg smtpOk now (sent, st) lead).1,
             (schedStep cfg smtpOk now (sent, st) lead).2) from rfl,
        ih, emails_schedStep]

/-- A scan preserves the email column. -/
theorem emails_processFollowups (cfg : SmtpConfig) (smtpOk : String → Bool) (now : Nat)
    (st : Store) :
    ((processFollowups cfg smtpOk now st).2).map (fun l => l.email)
      = st.map (fun l => l.email) :=
  emails_foldl_schedStep cfg smtpOk now _ [] st

/-- An email appears in the scan's sent list only if it belongs to a
lead of the processed snapshot. -/
theorem mem_sent_foldl (cfg : SmtpConfig) (smtpOk : String → Bool) (now : Nat)
    (leads : List Lead) :
    ∀ (sent : List String) (st : Store) (e : String),
      e ∈ (leads.foldl (schedStep cfg smtpOk now) (sent, st)).1 →
        e ∈ sent ∨ ∃ l ∈ leads, l.email = e := by
  induction leads with
  | nil => intro sent st e h; exact Or.inl h
  | cons lead rest ih =>
    intro sent st e h
    simp only [List.foldl_cons] at h
    rw [schedStep_eq] at h
    split at h
    · rcases ih _ _ _ h with h' | ⟨l, hl, hle⟩
      · rcases List.mem_append.mp h' with h'' | h''
        · exact Or.inl h''
        · have he : e = lead.email := by simpa using h''
          exact Or.inr ⟨lead, List.mem_cons_self _ _, he.symm⟩
      · exact Or.inr ⟨l, List.mem_cons_of_mem _ hl, hle⟩
    · rcases ih _ _ _ h with h' | ⟨l, hl, hle⟩
      · exact Or.inl h'
      · exact Or.inr ⟨l, List.mem_cons_of_mem _ hl, hle⟩

/-- Every email a scan sends to belongs to a selected lead. -/
theorem mem_sent_processFollowups (cfg : SmtpConfig) (smtpOk : String → Bool) (now : Nat)
    (st : Store) (e : String) (h : e ∈ (processFollowups cfg smtpOk now st).1) :
    ∃ l ∈ st, l.email = e ∧ needsFollowup now l = true := by
  rcases mem_sent_foldl cfg smtpOk now _ [] st e h with h' | ⟨l, hl, hle⟩
  · simp at h'
  · rcases List.mem_filter.mp hl with ⟨hmem, hsel⟩
    exact ⟨l, hmem, hle, hsel⟩

theorem rowEvolves_refl (l : Lead) : RowEvolves l l :=
  ⟨rfl, rfl, Or.inl rfl, Or.inl rfl⟩

theorem rowEvolves_trans {l2 l1 l0 : Lead}
    (h : RowEvolves l2 l1) (h' : RowEvolves l1 l0) : RowEvolves l2 l0 := by
  obtain ⟨he, hr, hs, hf⟩ := h
  obtain ⟨he', hr', hs', hf'⟩ := h'
  refine ⟨he.trans he', hr.trans hr', ?_, ?_⟩
  · rcases hs with hs | hs
    · rw [hs]; exact hs'
    · exact Or.inr hs
  · rcases hf with hf | hf
    · rw [hf]; exact hf'
    · exact Or.inr hf

theorem rowEvolves_clearFud (l : Lead) : RowEvolves (applyClearFud l) l :=
  ⟨rfl, rfl, Or.inl rfl, Or.inr rfl⟩

theorem rowEvolves_followup (now : Nat) (l : Lead) :
    RowEvolves (applyStatusUpdate ("followed_up") (some followupBody) now l) l := by
  rw [applyStatusUpdate_followup_eq]
  exact ⟨rfl, rfl, Or.inr rfl, Or.inl rfl⟩

/-- Every row after one scheduler iteration evolves from a row of the
store it started from. -/
theorem mem_store_schedStep (cfg : SmtpConfig) (smtpOk : String → Bool) (now : Nat)
    (sent : List String) (st : Store) (lead : Lead) (l' : Lead)
    (h : l' ∈ (schedStep cfg smtpOk now (sent, st) lead).2) :
    ∃ l ∈ st, RowEvolves l' l := by
  rw [schedStep_eq] at h
  split at h
  · dsimp only at h
    rcases mem_updateFirst _ _ _ _ h with h1 | ⟨l1, hl1, hcl⟩
    · rcases mem_updateFirst _ _ _ _ h1 with h0 | ⟨l0, hl0, hup⟩
      · exact ⟨l', h0, rowEvolves_refl l'⟩
      · exact ⟨l0, hl0, hup ▸ rowEvolves_followup now l0⟩
    · rcases mem_updateFirst _ _ _ _ hl1 with h0 | ⟨l0, hl0, hup⟩
      · exact ⟨l1, h0, hcl ▸ rowEvolves_clearFud l1⟩
      · refine ⟨l0, hl0, ?_⟩
        rw [hcl, hup]
        exact rowEvolves_trans (rowEvolves_clearFud _) (rowEvolves_followup now l0)
  · exact ⟨l', h, rowEvolves_refl l'⟩

/-- Every row after a scan loop evolves from a row of the initial
store. -/
theorem mem_store_foldl (cfg : SmtpConfig) (smtpOk : String → Bool) (now : Nat)
    (leads : List Lead) :
    ∀ (sent : List String) (st : Store) (l' : Lead),
      l' ∈ (leads.foldl (schedStep cfg smtpOk now) (sent, st)).2 →
        ∃ l ∈ st, RowEvolves l' l := by
  induction leads with
  | nil => intro sent st l' h; exact ⟨l', h, rowEvolves_refl l'⟩
  | cons lead rest ih =>
    intro sent st l' h
    simp only [List.foldl_cons] at h
    rw [show schedStep cfg smtpOk now (sent, st) lead
          = ((schedStep cfg smtpOk now (sent, st) lead).1,
             (schedStep cfg smtpOk now (sent, st) lead).2) from rfl] at h
    rcases ih _ _ _ h with ⟨l1, hl1, hev⟩
    rcases mem_store_schedStep cfg smtpOk now sent st lead l1 hl1 with ⟨l0, hl0, hev'⟩
    exact ⟨l0, hl0, rowEvolves_trans hev hev'⟩

/-- Every row after a full scan evolves from a row of the pre-scan
store. -/
theorem mem_store_processFollowups (cfg : SmtpConfig) (smtpOk : String → Bool)
    (now : Nat) (st : Store) (l' : Lead)
    (h : l' ∈ (processFollowups cfg smtpOk now st).2) :
    ∃ l ∈ st, RowEvolves l' l :=
  mem_store_foldl cfg smtpOk now _ [] st l' h

/-- A lookup succeeds exactly when the email occurs in the email
column. -/
theorem findLead_isSome_iff (e : String) (st : Store) :
    (findLead e st).isSome = true ↔ e ∈ st.map (fun l => l.email) := by
  simp only [findLead, List.find?_isSome, List.mem_map, beq_iff_eq]

theorem statusOf_eq (e : String) (st : Store) :
    statusOf e st = (findLead e st).map (fun l => l.status) := rfl

/-- A firing or skipped iteration leaves its own lead `emailed` or moves
it to `followed_up`. -/
theorem statusOf_schedStep_self (cfg : SmtpConfig) (smtpOk : String → Bool) (now : Nat)
    (sent : List String) (st : Store) (lead : Lead)
    (h : statusOf lead.email st = some ("emailed")) :
    statusOf lead.email (schedStep cfg smtpOk now (sent, st) lead).2 = some ("emailed")
      ∨ statusOf lead.email (schedStep cfg smtpOk now (sent, st) lead).2
          = some ("followed_up") := by
  rw [schedStep_eq]
  split
  · right
    dsimp only
    rw [statusOf_eq, findLead_clearFud, if_pos rfl, findLead_update, if_pos rfl]
    cases hfl : findLead lead.email st with
    | none => rw [statusOf_eq, hfl] at h; cases h
    | some l0 =>
      simp only [hfl, Option.map_some']
      show some (applyClearFud (applyStatusUpdate _ _ _ l0)).status = _
      have : (applyClearFud (applyStatusUpdate ("followed_up") (some followupBody) now l0)).status
          = (applyStatusUpdate ("followed_up") (some followupBody) now l0).status := rfl
      rw [this, applyStatusUpdate_status]
  · left; exact h

/-- Scan effect on statuses, when emails are unique: each row's status
is untouched, or was `emailed` and is now `followed_up`. -/
theorem statusOf_foldl_schedStep (cfg : SmtpConfig) (smtpOk : String → Bool) (now : Nat)
    (leads : List Lead) :
    ∀ (sent : List String) (st : Store),
      ((leads.map (fun l => l.email)).Nodup) →
      (∀ l ∈ leads, statusOf l.email st = some ("emailed")) →
      ∀ e, statusOf e (leads.foldl (schedStep cfg smtpOk now) (sent, st)).2 = statusOf e st
        ∨ (statusOf e st = some ("emailed")
            ∧ statusOf e (leads.foldl (schedStep cfg smtpOk now) (sent, st)).2
                = some ("followed_up")) := by
  induction leads with
  | nil => intro sent st _ _ e; exact Or.inl rfl
  | cons lead rest ih =>
    intro sent st hnd hinv e
    simp only [List.map_cons, List.nodup_cons] at hnd
    obtain ⟨hhead, hnd'⟩ := hnd
    simp only [List.foldl_cons]
    have hstep_ne : ∀ e', ¬e' = lead.email →
        statusOf e' (schedStep cfg smtpOk now (sent, st) lead).2 = statusOf e' st := by
      intro e' he'
      rw [statusOf_eq, statusOf_eq, findLead_schedStep_ne cfg smtpOk now sent st lead e' he']
    have hinv' : ∀ l ∈ rest, statusOf l.email (schedStep cfg smtpOk now (sent, st) lead).2
        = some ("emailed") := by
      intro l hl
      have hne : ¬l.email = lead.email := by
        intro hcontra
        exact hhead (hcontra ▸ List.mem_map_of_mem (fun l => l.email) hl)
      rw [hstep_ne l.email hne]
      exact hinv l (List.mem_cons_of_mem _ hl)
    have hIH := ih (schedStep cfg smtpOk now (sent, st) lead).1
      (schedStep cfg smtpOk now (sent, st) lead).2 hnd' hinv' e
    by_cases he : e = lead.email
    · subst he
      have hlead : statusOf lead.email st = some ("emailed") :=
        hinv lead (List.mem_cons_self _ _)
      rcases statusOf_schedStep_self cfg smtpOk now sent st lead hlead with hA | hB
      · rcases hIH with h1 | ⟨h2, h3⟩
        · exact Or.inl (h1.trans (hA.trans hlead.symm))
        · exact Or.inr ⟨hlead, h3⟩
      · rcases hIH with h1 | ⟨h2, h3⟩
        · exact Or.inr ⟨hlead, h1.trans hB⟩
        · exact absurd (hB.symm.trans h2) (by decide)
    · rw [hstep_ne e he] at hIH
      exact hIH

/-- Scan effect on statuses, at the scan level. -/
theorem statusOf_processFollowups (cfg : SmtpConfig) (smtpOk : String → Bool) (now : Nat)
    (st : Store) (hnd : (st.map (fun l => l.email)).Nodup) (e : String) :
    statusOf e (processFollowups cfg smtpOk now st).2 = statusOf e st
      ∨ (statusOf e st = some ("emailed")
          ∧ statusOf e (processFollowups cfg smtpOk now st).2 = some ("followed_up")) := by
  have hsub : ((getLeadsNeedingFollowup now st).map (fun l => l.email)).Nodup :=
    hnd.sublist ((List.filter_sublist st).map (fun l => l.email))
  have hinv : ∀ l ∈ getLeadsNeedingFollowup now st,
      statusOf l.email st = some ("emailed") := by
    intro l hl
    rcases List.mem_filter.mp hl with ⟨hmem, hsel⟩
    have := find?_eq_of_mem st l hnd hmem
    rw [statusOf_eq]
    show (st.find? (fun x => x.email == l.email)).map (fun l => l.status) = _
    rw [this]
    have hs := ((needsFollowup_iff now l).mp hsel).2.1
    simp [hs]
  exact statusOf_foldl_schedStep cfg smtpOk now _ [] st hsub hinv e

/-- Status effect of `mark_as_replied`: the targeted row (when present)
becomes `replied`, all others keep their status. -/
theorem statusOf_markAsReplied (e e' : String) (st : Store) :
    statusOf e (markAsReplied e' st)
      = if e = e' then (statusOf e st).map (fun _ => ("replied" : String))
        else statusOf e st := by
  rw [statusOf_eq, statusOf_eq, findLead_markReplied]
  by_cases he : e = e'
  · simp only [he, if_pos rfl]
    cases findLead e' st <;> rfl
  · simp only [if_neg he]

/-! ## Automated-transition lemmas -/

/-- Automated operations preserve the email column. -/
theorem emails_applyAutoOp (cfg : SmtpConfig) (st : Store) (op : AutoOp) :
    (applyAutoOp cfg st op).map (fun l => l.email) = st.map (fun l => l.email) := by
  cases op with
  | scan f now => exact emails_processFollowups cfg f now st
  | reply e => exact emails_markReplied e st

/-- One automated operation keeps a status, advances `emailed` to
`followed_up`, or moves to `replied`. -/
theorem statusOf_applyAutoOp_rel (cfg : SmtpConfig) (op : AutoOp) (st : Store)
    (e s s' : String) (hnd : (st.map (fun l => l.email)).Nodup)
    (h1 : statusOf e st = some s) (h2 : statusOf e (applyAutoOp cfg st op) = some s') :
    s' = s ∨ (s = "emailed" ∧ s' = "followed_up") ∨ s' = "replied" := by
  cases op with
  | scan f now =>
    rcases statusOf_processFollowups cfg f now st hnd e with hu | ⟨he, hf⟩
    · rw [applyAutoOp, hu, h1] at h2
      exact Or.inl (Option.some.inj h2).symm
    · rw [h1] at he
      rw [applyAutoOp, hf] at h2
      exact Or.inr (Or.inl ⟨(Option.some.inj he).symm ▸ rfl, (Option.some.inj h2).symm⟩)
  | reply e' =>
    rw [applyAutoOp, statusOf_markAsReplied] at h2
    by_cases he : e = e'
    · rw [if_pos he, h1] at h2
      exact Or.inr (Or.inr (Option.some.inj h2).symm)
    · rw [if_neg he, h1] at h2
      exact Or.inl (Option.some.inj h2).symm

/-- A sequence of automated operations keeps a status, advances
`emailed` to `followed_up`, or moves to `replied`. -/
theorem statusOf_applyAutoOps_rel (cfg : SmtpConfig) (ops : List AutoOp) :
    ∀ (st : Store) (e s s' : String), (st.map (fun l => l.email)).Nodup →
      statusOf e st = some s → statusOf e (applyAutoOps cfg ops st) = some s' →
      s' = s ∨ (s = "emailed" ∧ s' = "followed_up") ∨ s' = "replied" := by
  induction ops with
  | nil =>
    intro st e s s' _ h1 h2
    rw [applyAutoOps, List.foldl_nil, h1] at h2
    exact Or.inl (Option.some.inj h2).symm
  | cons op rest ih =>
    intro st e s s' hnd h1 h2
    have hnd1 : ((applyAutoOp cfg st op).map (fun l => l.email)).Nodup := by
      rw [emails_applyAutoOp]; exact hnd
    have hsome1 : (findLead e (applyAutoOp cfg st op)).isSome = true := by
      rw [findLead_isSome_iff, emails_applyAutoOp]
      rw [← findLead_isSome_iff]
      rw [statusOf_eq] at h1
      cases hfl : findLead e st with
      | none => rw [hfl] at h1; cases h1
      | some l => rfl
    cases hfl1 : findLead e (applyAutoOp cfg st op) with
    | none => rw [hfl1] at hsome1; cases hsome1
    | some l1 =>
      have h1' : statusOf e (applyAutoOp cfg st op) = some l1.status := by
        rw [statusOf_eq, hfl1]; rfl
      have hrest : statusOf e (applyAutoOps cfg rest (applyAutoOp cfg st op)) = some s' := by
        rw [applyAutoOps] at h2 ⊢
        rw [List.foldl_cons] at h2
        exact h2
      have step := statusOf_applyAutoOp_rel cfg op st e s l1.status hnd h1 h1'
      have tail := ih (applyAutoOp cfg st op) e l1.status s' hnd1 h1' hrest
      rcases tail with t1 | ⟨t2, t3⟩ | t4
      · rw [t1]
        exact step
      · rcases step with u1 | ⟨u2, u3⟩ | u4
        · rw [u1] at t2
          exact Or.inr (Or.inl ⟨t2, t3⟩)
        · rw [u3] at t2
          exact absurd t2 (by decide)
        · rw [u4] at t2
          exact absurd t2 (by decide)
      · exact Or.inr (Or.inr t4)

/-- Pipeline ranks never exceed the `replied` rank. -/
theorem statusRank_le_three (s : String) : statusRank s ≤ 3 := by
  unfold statusRank
  split_ifs <;> omega

/-- A scan preserves the replied-leads invariant. -/
theorem repliedInv_processFollowups (cfg : SmtpConfig) (smtpOk : String → Bool)
    (now : Nat) (st : Store) (h : RepliedInv st) :
    RepliedInv (processFollowups cfg smtpOk now st).2 := by
  intro l' hl' hr
  rcases mem_store_processFollowups cfg smtpOk now st l' hl' with ⟨l, hl, hev⟩
  obtain ⟨_, hrep, _, hfud⟩ := hev
  rcases hfud with hfud | hfud
  · rw [hfud]
    exact h l hl (hrep ▸ hr)
  · exact hfud

/-- `mark_as_replied` preserves the replied-leads invariant. -/
theorem repliedInv_markAsReplied (e : String) (st : Store) (h : RepliedInv st) :
    RepliedInv (markAsReplied e st) := by
  intro l' hl' hr
  rcases mem_updateFirst _ _ _ _ hl' with hmem | ⟨l, hl, heq⟩
  · exact h l' hmem hr
  · rw [heq]; rfl

/-- Every sequence of automated operations preserves the replied-leads
invariant. -/
theorem repliedInv_applyAutoOps (cfg : SmtpConfig) (ops : List AutoOp) :
    ∀ st : Store, RepliedInv st → RepliedInv (applyAutoOps cfg ops st) := by
  induction ops with
  | nil => intro st h; exact h
  | cons op rest ih =>
    intro st h
    rw [applyAutoOps, List.foldl_cons]
    refine ih _ ?_
    cases op with
    | scan f now => exact repliedInv_processFollowups cfg f now st h
    | reply e => exact repliedInv_markAsReplied e st h

/-! ## Discovery and enrichment lemmas -/

/-- Folding a score accumulator that adds `c` per matching term adds
`c` times the match count. -/
theorem foldl_add_count (c : ℚ) (p : String → Bool) (terms : List String) :
    ∀ init : ℚ,
      terms.foldl (fun sc t => if p t then sc + c else sc) init
        = init + c * (terms.countP p : ℚ) := by
  induction terms with
  | nil => intro init; simp
  | cons t ts ih =>
    intro init
    by_cases hp : p t = true
    · simp only [List.foldl_cons, hp, if_pos, List.countP_cons, ih]
      push_cast [hp]
      ring
    · simp only [List.foldl_cons, hp, if_neg, Bool.not_eq_true, List.countP_cons, ih]
      push_cast [hp]
      ring

/-- Folding a score accumulator that subtracts `c` per matching term
subtracts `c` times the match count. -/
theorem foldl_sub_count (c : ℚ) (p : String → Bool) (terms : List String) :
    ∀ init : ℚ,
      terms.foldl (fun sc t => if p t then sc - c else sc) init
        = init - c * (terms.countP p : ℚ) := by
  induction terms with
  | nil => intro init; simp
  | cons t ts ih =>
    intro init
    by_cases hp : p t = true
    · simp only [List.foldl_cons, hp, if_pos, List.countP_cons, ih]
      push_cast [hp]
      ring
    · simp only [List.foldl_cons, hp, if_neg, Bool.not_eq_true, List.countP_cons, ih]
      push_cast [hp]
      ring

/-- `add_lead` preserves uniqueness of the email column. -/
theorem nodup_emails_addLead (email : String)
    (name companyName companyData campaignId : Option String) (now : Nat) (st : Store)
    (hnd : (st.map (fun l => l.email)).Nodup) :
    (((addLead email name companyName companyData campaignId now st).2).map
        (fun l => l.email)).Nodup := by
  unfold addLead
  cases hf : st.find? (fun l => l.email == email) with
  | some l => exact hnd
  | none =>
    dsimp only
    rw [List.map_append]
    rw [List.nodup_append]
    refine ⟨hnd, List.nodup_singleton _, ?_⟩
    intro a ha hb
    have ha' : a = email := by simpa using hb
    subst ha'
    rcases List.mem_map.mp ha with ⟨l, hl, hle⟩
    have := List.find?_eq_none.mp hf l hl
    simp only [beq_iff_eq] at this
    exact this hle

/-- Any sequence of `add_lead` calls preserves uniqueness of the email
column. -/
theorem nodup_emails_applyAddLeads (args : List AddArgs) :
    ∀ st : Store, (st.map (fun l => l.email)).Nodup →
      ((applyAddLeads args st).map (fun l => l.email)).Nodup := by
  induction args with
  | nil => intro st h; exact h
  | cons a rest ih =>
    intro st h
    rw [applyAddLeads, List.foldl_cons]
    exact ih _ (nodup_emails_addLead a.email a.name a.company_name a.company_data
      a.campaign_id a.now st h)

/-- For a selected lead the double-check always passes, so the
iteration fires exactly when the send succeeds. -/
theorem stepFires_of_needsFollowup (cfg : SmtpConfig) (smtpOk : String → Bool)
    (now : Nat) (lead : Lead) (h : needsFollowup now lead = true) :
    stepFires cfg smtpOk now lead = sendEmailOk cfg (smtpOk lead.email) lead.email := by
  rcases (needsFollowup_iff now lead).mp h with ⟨⟨d, hd, hle⟩, _, hr⟩
  simp [stepFires, hd, hle, hr]

/-- Pointwise: a Firecrawl page is dropped exactly when it is not
usable. -/
theorem fcPageResult_eq_none_iff (fc : String → Option String) (u : String) :
    fcPageResult fc u = none ↔ fcUsable fc u = false := by
  unfold fcPageResult fcUsable
  cases hf : fc u with
  | none => simp
  | some md => by_cases hmd : md = "" <;> simp [hmd]

/-- Pointwise: a direct-fetch page is dropped exactly when it is not
usable. -/
theorem reqPageResult_eq_none_iff (req : String → Option String) (u : String) :
    reqPageResult req u = none ↔ reqUsable req u = false := by
  unfold reqPageResult reqUsable
  cases hf : req u with
  | none => simp
  | some text =>
    by_cases h1 : text = ""
    · simp [h1]
    · by_cases h2 : 100 < text.length
      · simp [h1, h2]
      · simp [h1, h2]

/-- The Firecrawl page collection is empty exactly when none of the
first three candidate pages yields usable content. -/
theorem fcCollect_eq_nil_iff (fc : String → Option String) (urls : List String) :
    fcCollect fc urls = [] ↔ ∀ u ∈ urls.take 3, fcUsable fc u = false := by
  have hpages : firecrawlPages urls = urls.take 3 := by
    rw [firecrawlPages, ← List.take_add]
  rw [fcCollect, hpages, List.filterMap_eq_nil_iff]
  simp only [fcPageResult_eq_none_iff]

/-- The direct-fetch page collection is empty exactly when none of the
first three candidate pages yields usable content. -/
theorem reqCollect_eq_nil_iff (req : String → Option String) (urls : List String) :
    reqCollect req urls = [] ↔ ∀ u ∈ urls.take 3, reqUsable req u = false := by
  rw [reqCollect, List.filterMap_eq_nil_iff]
  simp only [reqPageResult_eq_none_iff]

/-! ## Claim theorems -/

/-- C5, counterexample: deduplication in `add_lead` compares emails with
the exact (case-sensitive) SQL equality, so two `add_lead` calls whose
emails differ only by case produce two records that are equal under
case-insensitive normalization, contradicting the claimed invariant. -/
theorem claim5_counterexample :
    ((applyAddLeads [{ email := "a@x.com" }, { email := "A@x.com" }] []).map
        (fun l => l.email) = ["a@x.com", "A@x.com"])
    ∧ ¬ ((applyAddLeads [{ email := "a@x.com" }, { email := "A@x.com" }] []).map
        (fun l => l.email.toList.map Char.toLower)).Nodup := by
  constructor
  · rfl
  · decide

/-- C5, amended: for every sequence of `add_lead` operations the store
never contains two records with the identical email string (exact,
case-sensitive equality), and adding a lead whose exact email already
exists returns the existing record unmodified and creates no second
record. -/
theorem claim5_amended_exact_dedup :
    (∀ (args : List AddArgs) (st : Store), (st.map (fun l => l.email)).Nodup →
        ((applyAddLeads args st).map (fun l => l.email)).Nodup)
    ∧ (∀ (email : String) (name companyName companyData campaignId : Option String)
        (now : Nat) (st : Store) (l : Lead),
        st.find? (fun x => x.email == email) = some l →
        addLead email name companyName companyData campaignId now st = (l, st)) := by
  constructor
  · exact fun args st h => nodup_emails_applyAddLeads args st h
  · intro email n cn cd ci now st l h
    unfold addLead
    rw [h]

/-- C5 witness: concrete instantiation of the amended dedup claim. -/
theorem claim5_amended_exact_dedup_witness :
    ((applyAddLeads [{ email := "a@x.com" }, { email := "a@x.com" }] []).map
        (fun l => l.email)).Nodup
    ∧ addLead ("a@x.com") none none none none 5 [{ email := "a@x.com" }]
        = ({ email := "a@x.com" }, [{ email := "a@x.com" }]) :=
  ⟨claim5_amended_exact_dedup.1 [{ email := "a@x.com" }, { email := "a@x.com" }] []
      (by decide),
   claim5_amended_exact_dedup.2 ("a@x.com") none none none none 5
      [{ email := "a@x.com" }] { email := "a@x.com" } (by decide)⟩

/-- C6: when generative extraction fails for seed base URL
`https://acme-widgets.com`, the fallback record has `company_name`
equal to `"Acme-Widgets"` and `email` equal to
`"contact@acme-widgets.com"`, whatever was scraped; and the email-guess
helper on the fallback path returns a value (never raises) for every
input. -/
theorem claim6_fallback_extraction :
    (∀ (content : String) (scrapedPages : Option (List String)),
      (fallbackInfo content ("https://acme-widgets.com") scrapedPages).company_name
          = "Acme-Widgets"
        ∧ (fallbackInfo content ("https://acme-widgets.com") scrapedPages).email
          = some ("contact@acme-widgets.com"))
    ∧ (∀ (url content : String), (guessEmailFromUrl url content).isSome = true) := by
  constructor
  · exact fun content scrapedPages => ⟨rfl, rfl⟩
  · intro url content
    simp only [guessEmailFromUrl]
    split_ifs <;> rfl

/-- C7, counterexample: with no backend configured, `search_companies`
returns the empty list when `max_results = 0`, so the placeholder set is
not non-empty for every `max_results`. -/
theorem claim7_counterexample :
    searchCompanies SearchBackendState.noBackend ("boutique hotels in lisbon") 0 = [] :=
  rfl

/-- C7, amended: with no backend configured, and likewise when the
configured backend raises, `search_companies` returns the deterministic
placeholder set `generate_mock_results(query, max_results)` — a pure
function of query and `max_results` with `min(max_results, 5)` entries,
hence non-empty whenever `max_results >= 1` but empty for
`max_results <= 0`. -/
theorem claim7_amended_mock_results :
    (∀ (q : String) (n : Int), searchCompanies SearchBackendState.noBackend q n
        = generateMockResults q n)
    ∧ (∀ (q : String) (n : Int), searchCompanies SearchBackendState.backendRaises q n
        = generateMockResults q n)
    ∧ (∀ (q : String) (n : Int), (generateMockResults q n).length = (min n 5).toNat)
    ∧ (∀ (q : String) (n : Int), 1 ≤ n → generateMockResults q n ≠ []) := by
  refine ⟨fun q n => rfl, fun q n => rfl,
    fun q n => by rw [generateMockResults, List.length_map, List.length_range], ?_⟩
  intro q n hn
  have hlen : (generateMockResults q n).length = (min n 5).toNat := by
    rw [generateMockResults, List.length_map, List.length_range]
  have hpos : 0 < (min n 5).toNat := by omega
  exact List.ne_nil_of_length_pos (hlen ▸ hpos)

/-- C7 witness: concrete instantiation of the amended placeholder
claim. -/
theorem claim7_amended_mock_results_witness :
    (1 : Int) ≤ 3 ∧ generateMockResults ("ai startups") 3 ≠ [] :=
  ⟨by decide, claim7_amended_mock_results.2.2.2 ("ai startups") 3 (by decide)⟩

/-- C9: the relevance score equals 1 plus 0.2 per business-indicative
term occurring in the lowercased URL or title, plus 0.1 per
whitespace-separated query word occurring in the title, minus 0.1 per
generic term occurring in the title or URL, clamped to [0.1, 1]. -/
theorem claim9_relevance_score_formula (link title snippet query : String) :
    calculateRelevanceScore link title snippet query
      = max (1 / 10) (min 1
          (1 + (2 / 10) * (businessTerms.countP
                (fun t => strContains (pyLower link) t || strContains (pyLower title) t) : ℚ)
            + (1 / 10) * ((pySplitWs (pyLower query)).countP
                (fun w => strContains (pyLower title) w) : ℚ)
            - (1 / 10) * (genericTerms.countP
                (fun t => strContains (pyLower title) t || strContains (pyLower link) t) : ℚ))) := by
  simp only [calculateRelevanceScore]
  rw [foldl_add_count, foldl_sub_count]
  congr 1
  congr 1
  ring

theorem fudOf_eq (e : String) (st : Store) :
    fudOf e st = (findLead e st).map (fun l => l.follow_up_date) := rfl

theorem contentOf_eq (e : String) (st : Store) :
    contentOf e st = (findLead e st).map (fun l => l.email_content) := rfl

theorem lastContactedOf_eq (e : String) (st : Store) :
    lastContactedOf e st = (findLead e st).map (fun l => l.last_contacted_at) := rfl

/-- C2: for every eligible lead processed by a scheduler scan
iteration: exactly when the send reports success, the lead's
follow-up date is cleared to null, its status advances to
`followed_up` and the send is recorded; when the send reports failure
the sent list and the store are left unchanged, the lead is still
`emailed` and is selected again by a scan at the same time. -/
theorem claim2_followup_send_effects (cfg : SmtpConfig) (smtpOk : String → Bool)
    (now : Nat) (lead : Lead) (st : Store) (sent : List String)
    (hnd : (st.map (fun l => l.email)).Nodup) (hmem : lead ∈ st)
    (helig : needsFollowup now lead = true) :
    (sendEmailOk cfg (smtpOk lead.email) lead.email = true →
      statusOf lead.email (schedStep cfg smtpOk now (sent, st) lead).2
          = some ("followed_up")
        ∧ fudOf lead.email (schedStep cfg smtpOk now (sent, st) lead).2 = some none
        ∧ (schedStep cfg smtpOk now (sent, st) lead).1 = sent ++ [lead.email])
    ∧ (sendEmailOk cfg (smtpOk lead.email) lead.email = false →
      schedStep cfg smtpOk now (sent, st) lead = (sent, st)
        ∧ statusOf lead.email st = some ("emailed")
        ∧ lead ∈ getLeadsNeedingFollowup now st) := by
  have hfl : findLead lead.email st = some lead := find?_eq_of_mem st lead hnd hmem
  have hfires := stepFires_of_needsFollowup cfg smtpOk now lead helig
  have hs : lead.status = "emailed" := ((needsFollowup_iff now lead).mp helig).2.1
  constructor
  · intro hok
    have hf : stepFires cfg smtpOk now lead = true := by rw [hfires, hok]
    rw [schedStep_eq, hf, if_pos rfl]
    have hfind : findLead lead.email
        (clearFollowUpDate lead.email
          (updateLeadStatus lead.email ("followed_up") (some followupBody) now st))
        = some (applyClearFud (applyStatusUpdate ("followed_up") (some followupBody) now lead)) := by
      rw [findLead_clearFud, if_pos rfl, findLead_update, if_pos rfl, hfl]
      rfl
    refine ⟨?_, ?_, rfl⟩
    · rw [statusOf_eq]
      dsimp only
      rw [hfind, Option.map_some', applyStatusUpdate_followup_eq]
      rfl
    · rw [fudOf_eq]
      dsimp only
      rw [hfind, Option.map_some']
      rfl
  · intro hok
    have hf : stepFires cfg smtpOk now lead = false := by rw [hfires, hok]
    rw [schedStep_eq, hf, if_neg (by simp)]
    refine ⟨rfl, ?_, List.mem_filter.mpr ⟨hmem, helig⟩⟩
    rw [statusOf_eq, hfl, Option.map_some', hs]

/-- C2 witness: a concrete eligible lead whose send succeeds is
advanced to `followed_up`. -/
theorem claim2_followup_send_effects_witness :
    statusOf ("a@x.com")
        (schedStep { username := "u", password := "p", emailFrom := "f@x.com" }
          (fun _ => true) 10
          ([], [{ email := "a@x.com", status := "emailed", follow_up_date := some 5 }])
          { email := "a@x.com", status := "emailed", follow_up_date := some 5 }).2
      = some ("followed_up") :=
  ((claim2_followup_send_effects { username := "u", password := "p", emailFrom := "f@x.com" }
      (fun _ => true) 10
      { email := "a@x.com", status := "emailed", follow_up_date := some 5 }
      [{ email := "a@x.com", status := "emailed", follow_up_date := some 5 }] []
      (by decide) (by decide) (by decide)).1 (by decide)).1

/-- C10: a successful scheduler follow-up send also overwrites the
lead's stored `email_content` with the fixed generic follow-up body
and stamps `last_contacted_at` with the send time — side effects
beyond the status advance and the follow-up-date clearing. -/
theorem claim10_followup_side_effects (cfg : SmtpConfig) (smtpOk : String → Bool)
    (now : Nat) (lead : Lead) (st : Store) (sent : List String)
    (hnd : (st.map (fun l => l.email)).Nodup) (hmem : lead ∈ st)
    (helig : needsFollowup now lead = true)
    (hok : sendEmailOk cfg (smtpOk lead.email) lead.email = true) :
    contentOf lead.email (schedStep cfg smtpOk now (sent, st) lead).2
        = some (some followupBody)
      ∧ lastContactedOf lead.email (schedStep cfg smtpOk now (sent, st) lead).2
        = some (some now) := by
  have hfl : findLead lead.email st = some lead := find?_eq_of_mem st lead hnd hmem
  have hfires := stepFires_of_needsFollowup cfg smtpOk now lead helig
  have hf : stepFires cfg smtpOk now lead = true := by rw [hfires, hok]
  rw [schedStep_eq, hf, if_pos rfl]
  have hfind : findLead lead.email
      (clearFollowUpDate lead.email
        (updateLeadStatus lead.email ("followed_up") (some followupBody) now st))
      = some (applyClearFud (applyStatusUpdate ("followed_up") (some followupBody) now lead)) := by
    rw [findLead_clearFud, if_pos rfl, findLead_update, if_pos rfl, hfl]
    rfl
  constructor
  · rw [contentOf_eq]
    dsimp only
    rw [hfind, Option.map_some', applyStatusUpdate_followup_eq]
    rfl
  · rw [lastContactedOf_eq]
    dsimp only
    rw [hfind, Option.map_some', applyStatusUpdate_followup_eq]
    rfl

/-- C10 witness: the concrete side effects on a successful follow-up
send. -/
theorem claim10_followup_side_effects_witness :
    contentOf ("b@y.com")
        (schedStep { username := "u", password := "p", emailFrom := "f@x.com" }
          (fun _ => true) 9
          ([], [{ email := "b@y.com", status := "emailed", follow_up_date := some 9,
                  email_content := some "original outreach" }])
          { email := "b@y.com", status := "emailed", follow_up_date := some 9,
            email_content := some "original outreach" }).2
      = some (some followupBody) :=
  (claim10_followup_side_effects { username := "u", password := "p", emailFrom := "f@x.com" }
      (fun _ => true) 9
      { email := "b@y.com", status := "emailed", follow_up_date := some 9,
        email_content := some "original outreach" }
      [{ email := "b@y.com", status := "emailed", follow_up_date := some 9,
         email_content := some "original outreach" }] []
      (by decide) (by decide) (by decide) (by decide)).1

/-- Leads held only in `followed_up`/`replied` rows are never sent to,
however many scans run. -/
theorem not_sent_of_terminal (cfg : SmtpConfig) (scans : List (Nat × (String → Bool))) :
    ∀ (st : Store) (e : String),
      (∀ l ∈ st, l.email = e → l.status = "followed_up" ∨ l.status = "replied") →
      e ∉ (runScans cfg scans st).1 := by
  induction scans with
  | nil => intro st e _ hc; simp [runScans] at hc
  | cons p rest ih =>
    intro st e hinv hc
    obtain ⟨now, f⟩ := p
    simp only [runScans] at hc
    rcases List.mem_append.mp hc with hc | hc
    · rcases mem_sent_processFollowups cfg f now st e hc with ⟨l, hl, hle, hsel⟩
      have hst := ((needsFollowup_iff now l).mp hsel).2.1
      rcases hinv l hl hle with h | h <;> rw [hst] at h <;> exact absurd h (by decide)
    · refine ih (processFollowups cfg f now st).2 e ?_ hc
      intro l' hl' hle'
      rcases mem_store_processFollowups cfg f now st l' hl' with ⟨l, hl, hev⟩
      obtain ⟨hee, _, hss, _⟩ := hev
      rcases hss with hs | hs
      · rw [hs]
        exact hinv l hl (hee.symm.trans hle')
      · exact Or.inl hs

/-- C1: a scan selects a lead iff its follow-up date is non-null and
elapsed, its status is exactly `emailed`, and it has not replied;
consequently leads held in `followed_up` or `replied` rows are never
sent a follow-up by any sequence of scans, and a lead whose follow-up
date lies in the future of a scan's time is not sent by that scan. -/
theorem claim1_scheduler_selection :
    (∀ (now : Nat) (st : Store) (l : Lead),
      l ∈ getLeadsNeedingFollowup now st
        ↔ l ∈ st ∧ (∃ d, l.follow_up_date = some d ∧ d ≤ now)
            ∧ l.status = "emailed" ∧ l.has_replied = false)
    ∧ (∀ (cfg : SmtpConfig) (scans : List (Nat × (String → Bool))) (st : Store) (e : String),
      (∀ l ∈ st, l.email = e → l.status = "followed_up" ∨ l.status = "replied") →
      e ∉ (runScans cfg scans st).1)
    ∧ (∀ (cfg : SmtpConfig) (smtpOk : String → Bool) (now : Nat) (st : Store) (e : String),
      (∀ l ∈ st, l.email = e → ∃ d, l.follow_up_date = some d ∧ now < d) →
      e ∉ (processFollowups cfg smtpOk now st).1) := by
  refine ⟨?_, ?_, ?_⟩
  · intro now st l
    rw [getLeadsNeedingFollowup, List.mem_filter, needsFollowup_iff]
  · exact fun cfg scans st e h => not_sent_of_terminal cfg scans st e h
  · intro cfg smtpOk now st e hinv hc
    rcases mem_sent_processFollowups cfg smtpOk now st e hc with ⟨l, hl, hle, hsel⟩
    rcases ((needsFollowup_iff now l).mp hsel).1 with ⟨d, hd, hdle⟩
    rcases hinv l hl hle with ⟨d', hd', hlt⟩
    rw [hd] at hd'
    have : d = d' := Option.some.inj hd'
    omega

/-- C1 witness: a replied lead survives two scans unsent, and a lead
with a future follow-up date is not sent by an early scan. -/
theorem claim1_scheduler_selection_witness :
    (("c@z.com" : String) ∉ (runScans { username := "u", password := "p", emailFrom := "f@x.com" }
        [(10, fun _ => true), (20, fun _ => true)]
        [{ email := "c@z.com", status := "replied", has_replied := true }]).1)
    ∧ (("d@z.com" : String) ∉ (processFollowups { username := "u", password := "p", emailFrom := "f@x.com" }
        (fun _ => true) 3
        [{ email := "d@z.com", status := "emailed", follow_up_date := some 30 }]).1) :=
  ⟨claim1_scheduler_selection.2.1 { username := "u", password := "p", emailFrom := "f@x.com" }
      [(10, fun _ => true), (20, fun _ => true)]
      [{ email := "c@z.com", status := "replied", has_replied := true }] ("c@z.com")
      (by decide),
   claim1_scheduler_selection.2.2 { username := "u", password := "p", emailFrom := "f@x.com" }
      (fun _ => true) 3
      [{ email := "d@z.com", status := "emailed", follow_up_date := some 30 }] ("d@z.com")
      (fun l hl _ => by
        rw [List.mem_singleton.mp hl]
        exact ⟨30, rfl, by decide⟩)⟩

/-- C3, counterexample: `update_lead_status` writes whatever status it
is given, so a store-operation sequence can regress a lead from
`emailed` back to `found`. -/
theorem claim3_counterexample :
    statusOf ("a@x.com")
        (updateLeadStatus ("a@x.com") ("emailed") none 0
          (applyAddLeads [{ email := "a@x.com" }] [])) = some ("emailed")
    ∧ statusOf ("a@x.com")
        (updateLeadStatus ("a@x.com") ("found") none 1
          (updateLeadStatus ("a@x.com") ("emailed") none 0
            (applyAddLeads [{ email := "a@x.com" }] []))) = some ("found")
    ∧ statusRank ("found") < statusRank ("emailed") := by decide

/-- C3, amended: restricted to the system's automated transitions —
scheduler scans and `mark_as_replied` — a lead's status never
regresses along `found -> emailed -> followed_up -> replied` and
`replied` is absorbing; `replied` is reachable from any prior status
via `mark_as_replied`.  (The raw `update_lead_status` store operation
enforces no such order.) -/
theorem claim3_amended_status_monotonic :
    (∀ (cfg : SmtpConfig) (ops : List AutoOp) (st : Store) (e s s' : String),
      (st.map (fun l => l.email)).Nodup →
      statusOf e st = some s → statusOf e (applyAutoOps cfg ops st) = some s' →
      statusRank s ≤ statusRank s' ∧ (s = "replied" → s' = "replied"))
    ∧ (∀ (e : String) (st : Store) (l : Lead), findLead e st = some l →
      statusOf e (markAsReplied e st) = some ("replied")) := by
  constructor
  · intro cfg ops st e s s' hnd h1 h2
    rcases statusOf_applyAutoOps_rel cfg ops st e s s' hnd h1 h2 with h | ⟨hs, hs'⟩ | h
    · subst h
      exact ⟨le_rfl, fun hr => hr⟩
    · subst hs; subst hs'
      exact ⟨by decide, fun hr => absurd hr (by decide)⟩
    · subst h
      have h3 : statusRank ("replied") = 3 := by decide
      exact ⟨h3 ▸ statusRank_le_three s, fun _ => rfl⟩
  · intro e st l h
    rw [statusOf_markAsReplied, if_pos rfl, statusOf_eq]
    rw [h]
    rfl

/-- C3 witness: concrete monotone transition `found -> replied` via
`mark_as_replied`, and `replied` reached directly. -/
theorem claim3_amended_status_monotonic_witness :
    (statusRank ("found") ≤ statusRank ("replied")
      ∧ (("found" : String) = "replied" → ("replied" : String) = "replied"))
    ∧ statusOf ("a@x.com") (markAsReplied ("a@x.com") [{ email := "a@x.com" }])
        = some ("replied") :=
  ⟨claim3_amended_status_monotonic.1 { username := "u", password := "p", emailFrom := "f@x.com" }
      [AutoOp.reply ("a@x.com")] [{ email := "a@x.com" }] ("a@x.com") ("found") ("replied")
      (by decide) (by decide) (by decide),
   claim3_amended_status_monotonic.2 ("a@x.com") [{ email := "a@x.com" }]
      { email := "a@x.com" } (by decide)⟩

/-- C4, counterexample: `update_lead_status` with status `emailed`
unconditionally re-sets a follow-up date, even on a lead that has
already replied, violating the claimed invariant
`has_replied -> follow_up_date = null`. -/
theorem claim4_counterexample :
    (findLead ("b@x.com")
        (updateLeadStatus ("b@x.com") ("emailed") (some "hello again") 20
          (markAsReplied ("b@x.com") (applyAddLeads [{ email := "b@x.com" }] [])))).map
        (fun l => (l.has_replied, l.follow_up_date))
      = some (true, some 27) := by decide

/-- C4, amended: `mark_as_replied` clears any scheduled follow-up on
the lead it marks, and the invariant `has_replied -> follow_up_date =
null` is preserved by every sequence of automated operations
(scheduler scans and `mark_as_replied`); it is not preserved by
`update_lead_status` with status `emailed`. -/
theorem claim4_amended_replied_invariant :
    (∀ (e : String) (st : Store) (l : Lead),
      findLead e (markAsReplied e st) = some l →
        l.has_replied = true ∧ l.follow_up_date = none)
    ∧ (∀ (cfg : SmtpConfig) (ops : List AutoOp) (st : Store),
      RepliedInv st → RepliedInv (applyAutoOps cfg ops st)) := by
  constructor
  · intro e st l h
    rw [findLead_markReplied, if_pos rfl] at h
    cases hfl : findLead e st with
    | none => rw [hfl] at h; cases h
    | some l0 =>
      rw [hfl, Option.map_some'] at h
      have := Option.some.inj h
      rw [← this]
      exact ⟨rfl, rfl⟩
  · exact fun cfg ops st h => repliedInv_applyAutoOps cfg ops st h

/-- C4 witness: marking a concrete scheduled lead as replied clears
its follow-up, and the invariant survives a concrete automated
sequence. -/
theorem claim4_amended_replied_invariant_witness :
    (({ email := "b@x.com", status := "replied", follow_up_date := none, has_replied := true } : Lead).has_replied = true
      ∧ ({ email := "b@x.com", status := "replied", follow_up_date := none, has_replied := true } : Lead).follow_up_date = none)
    ∧ RepliedInv (applyAutoOps { username := "u", password := "p", emailFrom := "f@x.com" }
        [AutoOp.reply ("b@x.com")] [{ email := "b@x.com", follow_up_date := some 3 }]) :=
  ⟨claim4_amended_replied_invariant.1 ("b@x.com")
      [{ email := "b@x.com", status := "emailed", follow_up_date := some 3 }]
      { email := "b@x.com", status := "replied", follow_up_date := none,
        has_replied := true } (by decide),
   claim4_amended_replied_invariant.2 { username := "u", password := "p", emailFrom := "f@x.com" }
      [AutoOp.reply ("b@x.com")] [{ email := "b@x.com", follow_up_date := some 3 }]
      (by
        intro l hl hr
        rw [List.mem_singleton.mp hl] at hr
        exact absurd hr (by decide))⟩

/-- C8: the content fetch for a seed URL fails (returns no result)
exactly when zero of the at-most-three attempted candidate pages yield
usable content through the primary provider or the direct-fetch
fallback (only the latter when no primary is configured); any
non-failure result is built from the successful pages of whichever
path succeeded, with the base URL stamped on it. -/
theorem claim8_scrape_failure_iff (fc req : String → Option String)
    (extract : String → List String → ExtractedInfo) (url : String) :
    (scrapeWebsite true fc req extract url = none
      ↔ ∀ u ∈ (pagesToScrape (normalizeUrl url)).take 3,
          fcUsable fc u = false ∧ reqUsable req u = false)
    ∧ (scrapeWebsite false fc req extract url = none
      ↔ ∀ u ∈ (pagesToScrape (normalizeUrl url)).take 3, reqUsable req u = false)
    ∧ (∀ r, scrapeWebsite true fc req extract url = some r →
        (fcCollect fc (pagesToScrape (normalizeUrl url)) ≠ []
          ∧ r = { extract
                    (combineContent (fcCollect fc (pagesToScrape (normalizeUrl url))))
                    ((fcCollect fc (pagesToScrape (normalizeUrl url))).map (fun p => p.url))
                  with website_url := normalizeUrl url })
        ∨ (fcCollect fc (pagesToScrape (normalizeUrl url)) = []
          ∧ reqCollect req (pagesToScrape (normalizeUrl url)) ≠ []
          ∧ r = { extract
                    (combineContent (reqCollect req (pagesToScrape (normalizeUrl url))))
                    ((reqCollect req (pagesToScrape (normalizeUrl url))).map (fun p => p.url))
                  with website_url := normalizeUrl url })) := by
  refine ⟨?_, ?_, ?_⟩
  · by_cases hfc : fcCollect fc (pagesToScrape (normalizeUrl url)) = []
    · by_cases hreq : reqCollect req (pagesToScrape (normalizeUrl url)) = []
      · constructor
        · intro _ u hu
          exact ⟨(fcCollect_eq_nil_iff fc _).mp hfc u hu,
            (reqCollect_eq_nil_iff req _).mp hreq u hu⟩
        · intro _
          simp [scrapeWebsite, deepScrapeFirecrawl, deepScrapeRequests, hfc, hreq]
      · constructor
        · intro h
          simp [scrapeWebsite, deepScrapeFirecrawl, deepScrapeRequests, hfc, hreq] at h
        · intro hall
          exact absurd ((reqCollect_eq_nil_iff req _).mpr (fun u hu => (hall u hu).2)) hreq
    · constructor
      · intro h
        simp [scrapeWebsite, deepScrapeFirecrawl, hfc] at h
      · intro hall
        exact absurd ((fcCollect_eq_nil_iff fc _).mpr (fun u hu => (hall u hu).1)) hfc
  · by_cases hreq : reqCollect req (pagesToScrape (normalizeUrl url)) = []
    · constructor
      · intro _ u hu
        exact (reqCollect_eq_nil_iff req _).mp hreq u hu
      · intro _
        simp [scrapeWebsite, deepScrapeRequests, hreq]
    · constructor
      · intro h
        simp [scrapeWebsite, deepScrapeRequests, hreq] at h
      · intro hall
        exact absurd ((reqCollect_eq_nil_iff req _).mpr hall) hreq
  · intro r hr
    by_cases hfc : fcCollect fc (pagesToScrape (normalizeUrl url)) = []
    · by_cases hreq : reqCollect req (pagesToScrape (normalizeUrl url)) = []
      · exfalso
        simp [scrapeWebsite, deepScrapeFirecrawl, deepScrapeRequests, hfc, hreq] at hr
      · right
        refine ⟨hfc, hreq, ?_⟩
        have hcomp : scrapeWebsite true fc req extract url
            = some { extract
                (combineContent (reqCollect req (pagesToScrape (normalizeUrl url))))
                ((reqCollect req (pagesToScrape (normalizeUrl url))).map (fun p => p.url))
              with website_url := normalizeUrl url } := by
          simp [scrapeWebsite, deepScrapeFirecrawl, deepScrapeRequests, hfc, hreq]
        rw [hcomp] at hr
        exact (Option.some.inj hr).symm
    · left
      refine ⟨hfc, ?_⟩
      have hcomp : scrapeWebsite true fc req extract url
          = some { extract
              (combineContent (fcCollect fc (pagesToScrape (normalizeUrl url))))
              ((fcCollect fc (pagesToScrape (normalizeUrl url))).map (fun p => p.url))
            with website_url := normalizeUrl url } := by
        simp [scrapeWebsite, deepScrapeFirecrawl, hfc]
      rw [hcomp] at hr
      exact (Option.some.inj hr).symm

/-- C8 witness: with a primary provider yielding content on all three
attempted pages, the fetch returns the non-failure result built from
those pages. -/
theorem claim8_scrape_failure_iff_witness :
    (([{ url := "https://ex.com", content := "MD" }, { url := "https://ex.com/contact", content := "MD" }, { url := "https://ex.com/about", content := "MD" }] : List ScrapedPage) ≠ []
      ∧ ({ company_name := "X", description := "D", website_url := "https://ex.com", email := none, source_url := "S", scraped_pages := ["https://ex.com", "https://ex.com/contact", "https://ex.com/about"] } : ExtractedInfo)
          = { company_name := "X", description := "D", website_url := "https://ex.com", email := none, source_url := "S", scraped_pages := ["https://ex.com", "https://ex.com/contact", "https://ex.com/about"] })
    ∨ (([{ url := "https://ex.com", content := "MD" }, { url := "https://ex.com/contact", content := "MD" }, { url := "https://ex.com/about", content := "MD" }] : List ScrapedPage) = []
      ∧ ([] : List ScrapedPage) ≠ []
      ∧ ({ company_name := "X", description := "D", website_url := "https://ex.com", email := none, source_url := "S", scraped_pages := ["https://ex.com", "https://ex.com/contact", "https://ex.com/about"] } : ExtractedInfo)
          = { company_name := "X", description := "D", website_url := "https://ex.com", email := none, source_url := "S", scraped_pages := ([] : List String) }) :=
  (claim8_scrape_failure_iff (fun _ => some ("MD")) (fun _ => none)
      (fun _ ps => { company_name := "X", description := "D", website_url := "W", email := none, source_url := "S", scraped_pages := ps })
      ("https://ex.com")).2.2
    { company_name := "X", description := "D", website_url := "https://ex.com",
      email := none, source_url := "S",
      scraped_pages := ["https://ex.com", "https://ex.com/contact", "https://ex.com/about"] }
    (by decide)

end LeadGen
